import Mathlib

set_option maxRecDepth 8000

/-!
Verification model of PyIMG4 (src/pyimg4), the Image4 parser/builder.

The ASN.1 stream layer is an external collaborator in the source
(python-asn1, used only through peek/read/enter/leave/write), so the wire
format is modelled as a tree of ASN.1 values rather than raw DER octets:
two encodings are byte-equal iff the value trees are equal (DER is a
deterministic encoding).  Byte strings are modelled disjointly as either
raw octets or the encoding of a list of ASN.1 values; the source reads an
octet string and sometimes re-parses it as DER (keybag blobs), sometimes
treats it as opaque payload bytes, and the model follows whichever use the
code makes of a given byte string.

The LZSS/LZFSE codecs, AES-CBC decryption and adler32 are external
byte-to-byte collaborators; definitions take them as an explicit `Codecs`
record, so theorems quantify over every possible behaviour of these
collaborators and witnesses instantiate them with concrete functions.
-/

namespace PyIMG4

/-- ASN.1 values as exchanged with the python-asn1 collaborator.
`octetRaw` is an octet string of opaque bytes; `octetEnc xs` is an octet
string whose bytes are the DER encoding of the value list `xs`.
`priv` and `ctx` are PRIVATE- and CONTEXT-class constructed values with
the given tag number. -/
inductive Asn1 where
  | int (n : Int)
  | ia5 (s : String)
  | printable (s : String)
  | octetRaw (bs : List Nat)
  | octetEnc (xs : List Asn1)
  | seq (xs : List Asn1)
  | set (xs : List Asn1)
  | priv (tag : Nat) (xs : List Asn1)
  | ctx (tag : Nat) (xs : List Asn1)

mutual

/-- Structural equality of ASN.1 values, the model of python `==` on the
byte strings they encode to. -/
def Asn1.beq : Asn1 → Asn1 → Bool
  | .int a, .int b => a == b
  | .ia5 a, .ia5 b => a == b
  | .printable a, .printable b => a == b
  | .octetRaw a, .octetRaw b => a == b
  | .octetEnc a, .octetEnc b => Asn1.beqList a b
  | .seq a, .seq b => Asn1.beqList a b
  | .set a, .set b => Asn1.beqList a b
  | .priv t a, .priv u b => t == u && Asn1.beqList a b
  | .ctx t a, .ctx u b => t == u && Asn1.beqList a b
  | _, _ => false

/-- Equality of lists of ASN.1 values. -/
def Asn1.beqList : List Asn1 → List Asn1 → Bool
  | [], [] => true
  | a :: as, b :: bs => Asn1.beq a b && Asn1.beqList as bs
  | _, _ => false

end

/-- A python `bytes` value in the model: opaque bytes, or bytes that are
the DER encoding of a list of ASN.1 values. -/
inductive PBytes where
  | raw (bs : List Nat)
  | enc (xs : List Asn1)

/-- Equality of modelled byte strings. -/
def PBytes.beq : PBytes → PBytes → Bool
  | .raw a, .raw b => a == b
  | .enc a, .enc b => Asn1.beqList a b
  | _, _ => false

/-- A value as returned by `Decoder.read()[1]` and stored in a
`_Property`: an integer, a string, or bytes. -/
inductive PropValue where
  | pint (n : Int)
  | pstr (s : String)
  | pbytes (b : PBytes)

/-- Equality of decoded values (python `==` between property values). -/
def PropValue.beq : PropValue → PropValue → Bool
  | .pint a, .pint b => a == b
  | .pstr a, .pstr b => a == b
  | .pbytes a, .pbytes b => PBytes.beq a b
  | _, _ => false

/-- Model of `Decoder.read()[1]`: primitive values decode to int/str/bytes; reading
a constructed value returns the bytes of its content. -/
def readVal : Asn1 → PropValue
  | .int n => .pint n
  | .ia5 s => .pstr s
  | .printable s => .pstr s
  | .octetRaw bs => .pbytes (.raw bs)
  | .octetEnc xs => .pbytes (.enc xs)
  | .seq xs => .pbytes (.enc xs)
  | .set xs => .pbytes (.enc xs)
  | .priv _ xs => .pbytes (.enc xs)
  | .ctx _ xs => .pbytes (.enc xs)

/-- Model of `Encoder.write(value, None, Primitive, Universal)`: the tag is
inferred from the python type (int to Integer, str to PrintableString,
bytes to OctetString). -/
def encodeVal : PropValue → Asn1
  | .pint n => .int n
  | .pstr s => .printable s
  | .pbytes (.raw bs) => .octetRaw bs
  | .pbytes (.enc xs) => .octetEnc xs

/-- Model of `int(bytes(fourcc, 'ascii').hex(), 16)`: the big-endian integer formed
from the character codes of the fourcc, used as a PRIVATE tag number. -/
def fourccTag (f : String) : Nat :=
  f.toList.foldl (fun a c => a * 256 + c.toNat) 0

/-- Model of `data.startswith(pat)` on byte strings. -/
def startsWithB : List Nat → List Nat → Bool
  | [], _ => true
  | _ :: _, [] => false
  | a :: as, b :: bs => a == b && startsWithB as bs

/-- Model of `pat in data` on byte strings: some contiguous slice equals `pat`. -/
def containsB (pat : List Nat) (data : List Nat) : Bool :=
  startsWithB pat data ||
    match data with
    | [] => false
    | _ :: rest => containsB pat rest

/-- Model of `data[a:b]` for `a ≤ b` on byte strings. -/
def sliceB (a b : Nat) (data : List Nat) : List Nat :=
  (data.drop a).take (b - a)

/-- Model of `int(bs.hex(), 16)`: the big-endian integer value of a byte string. -/
def bytesToNat (bs : List Nat) : Nat :=
  bs.foldl (fun acc b => acc * 256 + b) 0

/-- Model of `b'complzss'` as character codes. -/
def complzssMagic : List Nat := [99, 111, 109, 112, 108, 122, 115, 115]

/-- Model of `b'bvx2'` as character codes. -/
def bvx2Magic : List Nat := [98, 118, 120, 50]

/-- Model of `b'bvx$'` as character codes. -/
def bvxEndMagic : List Nat := [98, 118, 120, 36]

/-- Model of `Compression` from src/pyimg4/_types.py (the enum `parser.py`
imports: it has no UNKNOWN member). -/
inductive Compression where
  | NONE
  | LZSS
  | LZFSE
  | LZFSE_ENCRYPTED
  deriving DecidableEq

/-- Model of `KeybagType` from src/pyimg4/_types.py. -/
inductive KeybagType where
  | PRODUCTION
  | DEVELOPMENT
  deriving DecidableEq

/-- Model of `KeybagType(n)`: construct the enum from its wire integer, failing
(ValueError) on any other value. -/
def KeybagType.ofInt : Int → Option KeybagType
  | 1 => some .PRODUCTION
  | 2 => some .DEVELOPMENT
  | _ => none

/-- A `Keybag`.  `rawData` is `_PyIMG4._data`: the bytes the keybag was
decoded from, or `none` when it was built from an explicit IV/key pair.
`Keybag` does not override `output()`, so python `==` between keybags
compares `rawData` (with `None == None` being true). -/
structure Keybag where
  type : KeybagType
  iv : List Nat
  key : List Nat
  rawData : Option PBytes

/-- Python `==` between keybags: `_PyIMG4.__eq__` compares `output()`,
which `Keybag` does not override, so it compares the stored `_data`. -/
def Keybag.beq (a b : Keybag) : Bool :=
  match a.rawData, b.rawData with
  | none, none => true
  | some x, some y => PBytes.beq x y
  | _, _ => false

/-- Model of `Keybag(iv=..., key=..., type_=...)`: the `iv` setter requires exactly
16 bytes and the `key` setter exactly 32 bytes (UnexpectedDataError
otherwise); a manually built keybag has no raw data. -/
def mkKeybag (iv key : List Nat) (type_ : KeybagType) : Option Keybag :=
  if iv.length = 16 ∧ key.length = 32 then some ⟨type_, iv, key, none⟩ else none

/-- The external byte-to-byte collaborators: LZSS and LZFSE codecs,
AES-CBC decryption (key, iv, data) and zlib adler32. -/
structure Codecs where
  lzssC : List Nat → List Nat
  lzssD : List Nat → List Nat
  lzfseC : List Nat → List Nat
  lzfseD : List Nat → Int → List Nat
  aesDec : List Nat → List Nat → List Nat → List Nat
  adler32 : List Nat → Nat

/-- The state of an `IM4PData`: payload bytes, keybags, optional trailing
extra data, the `_size` field and the `_compression` field stored by
`_detect_compression`. -/
structure IM4PData where
  data : List Nat
  keybags : List Keybag
  extra : Option (List Nat)
  size : Nat
  compression : Compression

/-- Python exceptions relevant to the modelled operations. -/
inductive PErr where
  | valueError
  | compressionError
  deriving DecidableEq

/-- Result of a mutating method call: the object state afterwards, plus
the exception it raised, if any. -/
structure MResult where
  state : IM4PData
  err : Option PErr

/-- Model of `IM4PData._detect_compression(size, data)`.  The first branch tests
`self.encrypted and size > 0`; the magic sniffing tests `data` for the
prefixes but `self._data` for the `b'bvx$'` occurrence, exactly as the
source does. -/
def detectCompression (encrypted : Bool) (size : Int) (data selfData : List Nat) :
    Compression :=
  if encrypted ∧ size > 0 then .LZFSE_ENCRYPTED
  else if startsWithB complzssMagic data then .LZSS
  else if startsWithB bvx2Magic data ∧ containsB bvxEndMagic selfData then .LZFSE
  else .NONE

/-- The `size` property setter: rejects negative values and values
strictly between 0 and the current payload length (ValueError). -/
def setSize (p : IM4PData) (n : Int) : Option IM4PData :=
  if n < 0 then none
  else if 0 < n ∧ n < (p.data.length : Int) then none
  else some { p with size := n.toNat }

/-- Model of `IM4PData.add_keybag`: rejects a keybag whose type is already present
and a keybag equal (python `==`) to one already present. -/
def addKeybag (p : IM4PData) (kb : Keybag) : Option IM4PData :=
  if p.keybags.any (fun k => k.type = kb.type) then none
  else if p.keybags.any (fun k => Keybag.beq k kb) then none
  else some { p with keybags := p.keybags ++ [kb] }

/-- Model of `IM4PData._parse_complzss_header`, run on construction when the data
has the `complzss` magic: reads the uncompressed size at 0xC..0x10 and the
compressed length at 0x10..0x14 (python raises on `int('', 16)` when the
buffer is too short for a slice, hence the length guard), stores the size
through the `size` setter, and when the declared compressed length is
shorter than the remaining buffer moves the surplus tail into `extra`. -/
def parseComplzssHeader (p : IM4PData) : Option IM4PData :=
  if p.data.length < 17 then none
  else
    match setSize p ((bytesToNat (sliceB 0xC 0x10 p.data) : Nat) : Int) with
    | none => none
    | some p1 =>
      if ((bytesToNat (sliceB 0x10 0x14 p.data)) : Int) <
          (p1.data.length : Int) - 0x180 then
        some { p1 with
          extra := some (p1.data.drop
            (p1.data.length -
              (p1.data.length - bytesToNat (sliceB 0x10 0x14 p.data) - 0x180))),
          data := p1.data.take
            (p1.data.length -
              (p1.data.length - bytesToNat (sliceB 0x10 0x14 p.data) - 0x180)) }
      else some p1

/-- Model of `IM4PData._decompress_data(data, compression, size)`: dispatches to
the LZSS codec on the `data` argument, or to the LZFSE codec on the
current buffer with the size hint. -/
def decompressData (C : Codecs) (p : IM4PData) (data : List Nat)
    (compression : Compression) (size : Int) : List Nat :=
  if compression = .LZSS then C.lzssD data else C.lzfseD p.data size

/-- Model of `IM4PData.__init__(data, size=..., extra=...)`: stores the extra
bytes, detects compression (with no keybags yet, so `encrypted` is false),
then parses the complzss header, or records the LZFSE decompressed length,
or records the given size, each through the checked `size` setter.
Any setter failure aborts construction. -/
def initIM4PData (C : Codecs) (data : List Nat) (size : Int)
    (extra : Option (List Nat)) : Option IM4PData :=
  if detectCompression false size data data = .LZSS then
    parseComplzssHeader ⟨data, [], extra, 0, detectCompression false size data data⟩
  else if detectCompression false size data data = .NONE ∨
      detectCompression false size data data = .LZFSE_ENCRYPTED then
    setSize ⟨data, [], extra, 0, detectCompression false size data data⟩ size
  else
    setSize ⟨data, [], extra, 0, detectCompression false size data data⟩
      ((C.lzfseD data size).length : Int)

/-- Model of `IM4PData.decrypt(kbag)`: AES-CBC-decrypts the whole buffer and clears
the keybags.  It does not touch the stored `_compression`. -/
def decrypt (C : Codecs) (p : IM4PData) (kb : Keybag) : IM4PData :=
  { p with data := C.aesDec kb.key kb.iv p.data, keybags := [] }

/-- Model of `IM4PData.decompress()`: fails on NONE and on LZFSE_ENCRYPTED;
otherwise replaces the buffer with the codec output, sets the stored
compression to NONE, then re-runs `_detect_compression` on the new
buffer. -/
def decompress (C : Codecs) (p : IM4PData) : MResult :=
  if p.compression = .NONE then ⟨p, some .compressionError⟩
  else if p.compression = .LZFSE_ENCRYPTED then ⟨p, some .compressionError⟩
  else
    let d := decompressData C p p.data p.compression (p.size : Int)
    let p1 : IM4PData := { p with data := d, compression := .NONE }
    ⟨{ p1 with
        compression := detectCompression (!p1.keybags.isEmpty) (p1.size : Int)
          p1.data p1.data }, none⟩

/-- The fixed 0x180-byte complzss header written by `compress`: magic,
big-endian adler32 of the pre-compression buffer, uncompressed size,
compressed size, version 1, zero padding.  (Sizes of 2^32 or more would
make python `int.to_bytes(4, 'big')` raise; such payloads are outside this
model.) -/
def complzssHeader (adler size compSize : Nat) : List Nat :=
  complzssMagic ++ natTo4be adler ++ natTo4be size ++ natTo4be compSize ++
    natTo4be 1 ++ List.replicate (0x180 - 24) 0
where
  natTo4be (n : Nat) : List Nat :=
    [n / 2 ^ 24 % 256, n / 2 ^ 16 % 256, n / 2 ^ 8 % 256, n % 256]

/-- Model of `IM4PData.compress(compression)`: rejects NONE/LZFSE_ENCRYPTED
(ValueError), an encrypted payload, and an already-compressed payload
(CompressionError).  It then sets `size` to the buffer length, compresses,
verifies the LZFSE magic framing (CompressionError on failure, after
`size` has already been mutated), re-detects compression, and re-appends
any extra bytes. -/
def compress (C : Codecs) (compression : Compression) (p : IM4PData) : MResult :=
  if compression = .NONE ∨ compression = .LZFSE_ENCRYPTED then ⟨p, some .valueError⟩
  else if p.keybags.isEmpty = false then ⟨p, some .compressionError⟩
  else if p.compression = .LZSS ∨ p.compression = .LZFSE then
    ⟨p, some .compressionError⟩
  else
    match setSize p (p.data.length : Int) with
    | none => ⟨p, some .valueError⟩
    | some p1 =>
      if compression = .LZSS then
        let cd := C.lzssC p1.data
        let p2 : IM4PData :=
          { p1 with data := complzssHeader (C.adler32 p1.data) p1.size cd.length ++ cd }
        let p3 : IM4PData :=
          { p2 with
            compression := detectCompression false (p2.size : Int) p2.data p2.data }
        match p3.extra with
        | some e => ⟨{ p3 with data := p3.data ++ e }, none⟩
        | none => ⟨p3, none⟩
      else
        let cd := C.lzfseC p1.data
        if ¬(startsWithB bvx2Magic cd ∧ containsB bvxEndMagic cd) then
          ⟨p1, some .compressionError⟩
        else
          let p2 : IM4PData := { p1 with data := cd }
          let p3 : IM4PData :=
            { p2 with
              compression := detectCompression false (p2.size : Int) p2.data p2.data }
          match p3.extra with
          | some e => ⟨{ p3 with data := p3.data ++ e }, none⟩
          | none => ⟨p3, none⟩

/-- The `Payload` named tuple returned by `IM4PData.output()`: the payload
bytes and, when keybags are present, the DER-encoded keybag blob (given
here as the encoded value list). -/
structure PayloadOut where
  data : List Nat
  keybags : Option (List Asn1)

/-- One serialized keybag inside the blob: the integer written is
`self.keybags.index(kbag) + 1` (position of the first `==`-equal keybag),
followed by the IV and key octet strings. -/
def kbagSeq (kbs : List Keybag) : List Asn1 :=
  kbs.map fun kb =>
    .seq [.int ((kbs.findIdx (fun k => Keybag.beq k kb) : Int) + 1),
      .octetRaw kb.iv, .octetRaw kb.key]

/-- Model of `IM4PData.output()`. -/
def im4pDataOutput (p : IM4PData) : PayloadOut :=
  ⟨p.data, if p.keybags.isEmpty then none else some [.seq (kbagSeq p.keybags)]⟩

/-- The compression enum as the specification describes it, including the
UNKNOWN member the spec names for encrypted payloads with no known
size. -/
inductive SpecCompression where
  | UNKNOWN
  | NONE
  | LZSS
  | LZFSE
  | LZFSE_ENCRYPTED
  deriving DecidableEq

/-- The source's compression values embedded into the spec's enum. -/
def Compression.toSpec : Compression → SpecCompression
  | .NONE => .NONE
  | .LZSS => .LZSS
  | .LZFSE => .LZFSE
  | .LZFSE_ENCRYPTED => .LZFSE_ENCRYPTED

/-- Modelled from the spec (claim C2's classification, for comparison
with the source): encrypted with no known size is UNKNOWN; encrypted with
a known size is LZFSE_ENCRYPTED; else a `complzss` prefix is LZSS; a
`bvx2` prefix together with a `bvx$` suffix is LZFSE; anything else is
NONE. -/
def claimClassify (encrypted : Bool) (sizeKnown : Bool) (data : List Nat) :
    SpecCompression :=
  if encrypted ∧ ¬sizeKnown then .UNKNOWN
  else if encrypted ∧ sizeKnown then .LZFSE_ENCRYPTED
  else if startsWithB complzssMagic data then .LZSS
  else if startsWithB bvx2Magic data ∧ startsWithB bvxEndMagic.reverse data.reverse then
    .LZFSE
  else .NONE

/-- A `_Property`: a fourcc plus an opaque value, round-tripped
verbatim. -/
structure ImgProperty where
  fourcc : String
  value : PropValue

/-- Python `==` between properties: `_Property.output()` re-encodes from
the fourcc/value pair injectively, so output equality is equality of the
pair. -/
def ImgProperty.beq (a b : ImgProperty) : Bool :=
  a.fourcc == b.fourcc && PropValue.beq a.value b.value

/-- Model of `_Property.output()`: a PRIVATE-class tag numbered by the fourcc,
wrapping SEQUENCE of the fourcc (IA5String) and the value.  The group
serializer re-wraps each member under the same PRIVATE tag it finds on
the member's own output, which is the identity on this shape. -/
def propTree (p : ImgProperty) : Asn1 :=
  .priv (fourccTag p.fourcc) [.seq [.ia5 p.fourcc, encodeVal p.value]]

/-- Model of `_Property._parse` on a byte string: the first decoded value must be
a SEQUENCE; its first member is the fourcc (a 4-character string), its
second is the value.  A missing member makes `read()` return None and the
constructor fail; opaque (non-DER-modelled) bytes fail to decode. -/
def parsePropertyBytes : PBytes → Option ImgProperty
  | .raw _ => none
  | .enc (Asn1.seq (s0 :: s1 :: _) :: _) =>
    match readVal s0 with
    | .pstr f => if f.length = 4 then some ⟨f, readVal s1⟩ else none
    | _ => none
  | .enc _ => none

/-- One member of a property-group SET: `read()[1]` yields its content
bytes, which are parsed as a property (a non-bytes member value makes the
`_Property` constructor fail). -/
def parsePropMember (m : Asn1) : Option ImgProperty :=
  match readVal m with
  | .pbytes pb => parsePropertyBytes pb
  | _ => none

/-- The `while not eof` member loop of `_PropertyGroup._parse`: parse
every member, appending in order, with no uniqueness check. -/
def parseProps : List Asn1 → Option (List ImgProperty)
  | [] => some []
  | m :: ms => do
    let p ← parsePropMember m
    let ps ← parseProps ms
    some (p :: ps)

/-- A `_PropertyGroup`: a fourcc and an ordered member list. -/
structure PropertyGroup where
  fourcc : String
  properties : List ImgProperty

/-- Model of `_PropertyGroup._parse` on a decoded value stream: SEQUENCE of a
4-character fourcc and a SET of members (anything after the SET is never
inspected, as the decoder stays inside the SET). -/
def parseGroupTop (vals : List Asn1) : Option PropertyGroup :=
  match vals with
  | .seq (e0 :: .set mems :: _) :: _ =>
    match readVal e0 with
    | .pstr f =>
      if f.length = 4 then (parseProps mems).map (fun ps => ⟨f, ps⟩) else none
    | _ => none
  | _ => none

/-- Model of `_PropertyGroup(data=...)`: decode a group from bytes. -/
def parseGroupBytes : PBytes → Option PropertyGroup
  | .raw _ => none
  | .enc vals => parseGroupTop vals

/-- Model of `_PropertyGroup(fourcc=...)`: fresh construction with a validated
fourcc and no members. -/
def mkPropertyGroup (f : String) : Option PropertyGroup :=
  if f.length = 4 then some ⟨f, []⟩ else none

/-- Model of `_PropertyGroup.add_property`: fails (ValueError) when a member with
the same fourcc is already present, otherwise appends. -/
def addProperty (g : PropertyGroup) (p : ImgProperty) : Option PropertyGroup :=
  if g.properties.any (fun q => q.fourcc = p.fourcc) then none
  else some { g with properties := g.properties ++ [p] }

/-- Model of `list.remove`: drop the first `==`-equal element. -/
def eraseFirstProp : List ImgProperty → ImgProperty → List ImgProperty
  | [], _ => []
  | q :: qs, p => if ImgProperty.beq q p then qs else q :: eraseFirstProp qs p

/-- Model of `_PropertyGroup.remove_property(prop=...)`: fails (ValueError) when no
`==`-equal member is present, otherwise removes the first such member. -/
def removePropertyByProp (g : PropertyGroup) (p : ImgProperty) :
    Option PropertyGroup :=
  if g.properties.any (fun q => ImgProperty.beq q p) then
    some { g with properties := eraseFirstProp g.properties p }
  else none

/-- Model of `_PropertyGroup.remove_property(fourcc=...)`: validates the fourcc,
finds the first member with that fourcc (ValueError when absent) and
removes it. -/
def removePropertyByFourcc (g : PropertyGroup) (f : String) :
    Option PropertyGroup :=
  if f.length = 4 then
    match g.properties.find? (fun q => q.fourcc = f) with
    | some pr => some { g with properties := eraseFirstProp g.properties pr }
    | none => none
  else none

/-- The `IM4R` state: a property group (the parsed fourcc is stored
as-is; the constructor's own fourcc argument is ignored on the decode
path). -/
structure IM4R where
  fourcc : String
  properties : List ImgProperty

/-- The `boot_nonce` getter: the value of the first BNCN member, if
any. -/
def IM4R.bootNonce (r : IM4R) : Option PropValue :=
  (r.properties.find? (fun p => p.fourcc = "BNCN")).map (fun p => p.value)

/-- The `boot_nonce` setter: requires exactly 8 bytes, removes the first
BNCN member if present, then `add_property` appends a fresh BNCN member
(failing if another BNCN member remains). -/
def IM4R.setBootNonce (r : IM4R) (bn : List Nat) : Option IM4R :=
  if bn.length = 8 then
    let props :=
      match r.properties.find? (fun p => p.fourcc = "BNCN") with
      | some pr => eraseFirstProp r.properties pr
      | none => r.properties
    if props.any (fun q => q.fourcc = "BNCN") then none
    else some { r with properties := props ++ [⟨"BNCN", .pbytes (.raw bn)⟩] }
  else none

/-- Model of `IM4R.__init__` on the decode path: parse as a property group, then,
when a boot nonce is present, store it byte-reversed through the setter
(the source slices the value, so a non-byte value raises; a value whose
bytes are not 8 long raises in the setter). -/
def IM4R.parse (vals : List Asn1) : Option IM4R := do
  let g ← parseGroupTop vals
  let r : IM4R := ⟨g.fourcc, g.properties⟩
  match IM4R.bootNonce r with
  | none => some r
  | some (.pbytes (.raw bs)) => IM4R.setBootNonce r bs.reverse
  | some _ => none

/-- Model of `IM4R.output()`: fails on an empty group; otherwise, before writing
the members, re-assigns `boot_nonce` to its own byte reversal (mutating
the object), then serializes the mutated member list.  Returns the
encoded value together with the mutated state. -/
def IM4R.output (r : IM4R) : Option (Asn1 × IM4R) := do
  if r.properties.isEmpty then none else
  let r1 ←
    match IM4R.bootNonce r with
    | none => some r
    | some (.pbytes (.raw bs)) => IM4R.setBootNonce r bs.reverse
    | some _ => none
  some (.seq [.ia5 r.fourcc, .set (r1.properties.map propTree)], r1)

/-- Model of `ManifestImageProperties.digest`: the value of the first DGST member,
if any. -/
def groupDigest (g : PropertyGroup) : Option PropValue :=
  (g.properties.find? (fun p => p.fourcc = "DGST")).map (fun p => p.value)

/-- One build identity from the caller-supplied build manifest, with the
chip/board ids already converted from their hex strings and the
descriptive metadata the verifier reports. -/
structure BuildIdentity where
  boardId : Int
  chipId : Int
  components : List (String × Option (List Nat))
  deviceClass : String
  buildNumber : String
  restoreBehavior : String

/-- The IM4M data `im4m_verify` consumes: the BORD/CHIP property values
(absent properties read as None) and the per-image property groups. -/
structure Im4mView where
  boardId : Option Int
  chipId : Option Int
  images : List PropertyGroup

/-- Model of `i.digest == image_info['Digest']`: byte equality when the image has
a DGST property holding bytes; False when the digest is absent or not a
byte value (python `None == bytes` and `int == bytes` are False). -/
def digestMatches (i : PropertyGroup) (d : List Nat) : Bool :=
  match groupDigest i with
  | some (.pbytes (.raw bs)) => bs == d
  | _ => false

/-- The verdict `im4m_verify` reports for the matching identity. -/
structure VerifyVerdict where
  deviceClass : String
  buildNumber : String
  restoreBehavior : String
  deriving DecidableEq

/-- The body of the per-component loop: components without a digest are
skipped; a component with a digest needs some image with a byte-equal
digest. -/
def componentOk (m : Im4mView) (c : String × Option (List Nat)) : Bool :=
  match c.2 with
  | none => true
  | some d => m.images.any (fun i => digestMatches i d)

/-- Claim C5's identity-selection condition: the identity's board and chip
ids both match the manifest's. -/
def MatchesIds (m : Im4mView) (bi : BuildIdentity) : Prop :=
  m.boardId = some bi.boardId ∧ m.chipId = some bi.chipId

/-- Claim C5's digest requirement: every component that declares a digest
has a byte-equal digest present among the manifest's images. -/
def SatisfiesDigests (m : Im4mView) (bi : BuildIdentity) : Prop :=
  ∀ c ∈ bi.components, ∀ d, c.2 = some d →
    ∃ i ∈ m.images, digestMatches i d = true

/-- Model of `im4m_verify` from src/pyimg4/main: scan the build identities in
order, skip any whose board and chip ids do not both match, check every
digest-declaring component of a matching identity against the images
(break to the next identity on the first failure), and report the first
identity whose components all pass; None when the list is exhausted. -/
def im4mVerify (m : Im4mView) : List BuildIdentity → Option VerifyVerdict
  | [] => none
  | bi :: rest =>
    if ¬(m.boardId = some bi.boardId ∧ m.chipId = some bi.chipId) then
      im4mVerify m rest
    else if bi.components.all (componentOk m) then
      some ⟨bi.deviceClass, bi.buildNumber, bi.restoreBehavior⟩
    else im4mVerify m rest

/-- A trivial instantiation of the external collaborators, used to
evaluate the model on concrete inputs. -/
def idCodecs : Codecs :=
  ⟨fun d => d, fun d => d, fun d => d, fun d _ => d, fun _ _ d => d, fun _ => 0⟩

/-- Collaborators whose LZFSE compressor emits output without the
`bvx2`/`bvx$` framing. -/
def noMagicCodecs : Codecs := { idCodecs with lzfseC := fun _ => [] }

/-- A plaintext carrying the LZFSE `bvx2`/`bvx$` framing. -/
def magicPlain : List Nat := bvx2Magic ++ [7] ++ bvxEndMagic

/-- Collaborators whose AES-CBC decryption yields `magicPlain`. -/
def c3Codecs : Codecs := { idCodecs with aesDec := fun _ _ _ => magicPlain }

/-- The ciphertext of the C3 scenario: 8 bytes with no magic. -/
def c3Cipher : List Nat := [9, 9, 9, 9, 9, 9, 9, 9]

/-- The keybag of the C3 scenario. -/
def c3Keybag : Keybag := ⟨.PRODUCTION, List.replicate 16 1, List.replicate 32 2, none⟩

/-- The payload state of the C3 scenario right after `decrypt`. -/
def c3Decrypted : IM4PData := ⟨magicPlain, [], none, 16, .NONE⟩

/-- A concrete complzss fixture: header declaring an uncompressed size of
512 and a compressed length of 2, 356 bytes of padding, 2 bytes of
compressed data and a 3-byte vendor trailer. -/
def c8Data : List Nat :=
  complzssMagic ++ [0, 0, 0, 0] ++ [0, 0, 2, 0] ++ [0, 0, 0, 2] ++ [0, 0, 0, 1] ++
    List.replicate (0x180 - 24) 0 ++ [170, 187] ++ [204, 221, 238]

/-- A concrete manifest view for the C5 scenario: one image with digest
7,7. -/
def c5Im4m : Im4mView :=
  ⟨some 1, some 2, [⟨"krnl", [⟨"DGST", .pbytes (.raw [7, 7])⟩]⟩]⟩

/-- A build identity whose ids do not match `c5Im4m`. -/
def c5IdA : BuildIdentity := ⟨9, 9, [], "badclass", "badbuild", "badrestore"⟩

/-- A build identity matching `c5Im4m`, with one digest-declaring
component and one digest-free component. -/
def c5IdB : BuildIdentity :=
  ⟨1, 2, [("KernelCache", some [7, 7]), ("RestoreLogo", none)], "D22AP",
    "19A346", "Erase"⟩

/-- The boot nonce of the C4 scenario. -/
def c4Nonce : List Nat := [17, 34, 51, 68, 85, 102, 119, 136]

/-- The list `c4Nonce` byte-reversed. -/
def c4NonceRev : List Nat := [136, 119, 102, 85, 68, 51, 34, 17]

/-- An IM4R wire value holding `c4Nonce` as its BNCN property. -/
def c4Wire : Asn1 :=
  .seq [.ia5 "IM4R",
    .set [.priv (fourccTag "BNCN") [.seq [.ia5 "BNCN", .octetRaw c4Nonce]]]]

/-- An IM4R wire value holding the reversed nonce. -/
def c4WireRev : Asn1 :=
  .seq [.ia5 "IM4R",
    .set [.priv (fourccTag "BNCN") [.seq [.ia5 "BNCN", .octetRaw c4NonceRev]]]]

/-- The boot nonce of the C1 scenario. -/
def c1Nonce : List Nat := [1, 2, 3, 4, 5, 6, 7, 8]

/-- The list `c1Nonce` byte-reversed. -/
def c1NonceRev : List Nat := [8, 7, 6, 5, 4, 3, 2, 1]

/-- An IM4R wire value holding `c1Nonce` as its BNCN property. -/
def c1Wire : Asn1 :=
  .seq [.ia5 "IM4R",
    .set [.priv (fourccTag "BNCN") [.seq [.ia5 "BNCN", .octetRaw c1Nonce]]]]

/-- An IM4R wire value holding the reversed nonce. -/
def c1WireRev : Asn1 :=
  .seq [.ia5 "IM4R",
    .set [.priv (fourccTag "BNCN") [.seq [.ia5 "BNCN", .octetRaw c1NonceRev]]]]

/-- A wire property group with two members carrying the same fourcc. -/
def c9DupTree : Asn1 :=
  .seq [.ia5 "AAAA",
    .set [.priv (fourccTag "BBBB") [.seq [.ia5 "BBBB", .int 1]],
      .priv (fourccTag "BBBB") [.seq [.ia5 "BBBB", .int 1]]]]

/-- An encrypted payload whose only keybag is a DEVELOPMENT keybag. -/
def c10Payload : IM4PData :=
  ⟨[5], [⟨.DEVELOPMENT, List.replicate 16 3, List.replicate 32 4, none⟩], none, 0,
    .NONE⟩

/-! ## Theorems -/

mutual

theorem asn1_beq_refl : ∀ a : Asn1, Asn1.beq a a = true
  | .int _ => by simp [Asn1.beq]
  | .ia5 _ => by simp [Asn1.beq]
  | .printable _ => by simp [Asn1.beq]
  | .octetRaw _ => by simp [Asn1.beq]
  | .octetEnc xs => by simp [Asn1.beq, asn1_beqList_refl xs]
  | .seq xs => by simp [Asn1.beq, asn1_beqList_refl xs]
  | .set xs => by simp [Asn1.beq, asn1_beqList_refl xs]
  | .priv _ xs => by simp [Asn1.beq, asn1_beqList_refl xs]
  | .ctx _ xs => by simp [Asn1.beq, asn1_beqList_refl xs]

theorem asn1_beqList_refl : ∀ xs : List Asn1, Asn1.beqList xs xs = true
  | [] => by simp [Asn1.beqList]
  | a :: as => by simp [Asn1.beqList, asn1_beq_refl a, asn1_beqList_refl as]

end

theorem pbytes_beq_refl : ∀ b : PBytes, PBytes.beq b b = true
  | .raw _ => by simp [PBytes.beq]
  | .enc xs => by simp [PBytes.beq, asn1_beqList_refl xs]

theorem propValue_beq_refl : ∀ v : PropValue, PropValue.beq v v = true
  | .pint _ => by simp [PropValue.beq]
  | .pstr _ => by simp [PropValue.beq]
  | .pbytes b => by simp [PropValue.beq, pbytes_beq_refl b]

theorem imgProperty_beq_refl (p : ImgProperty) : ImgProperty.beq p p = true := by
  simp [ImgProperty.beq, propValue_beq_refl]

theorem setSize_ok (p : IM4PData) (n : Nat) (hn : n = 0 ∨ p.data.length ≤ n) :
    setSize p (n : Int) = some { p with size := n } := by
  unfold setSize
  rw [if_neg (by omega), if_neg (by omega)]
  simp

theorem setSize_fields (p : IM4PData) (n : Int) (q : IM4PData)
    (h : setSize p n = some q) :
    q.compression = p.compression ∧ q.data = p.data ∧ q.keybags = p.keybags ∧
      q.extra = p.extra := by
  unfold setSize at h
  split at h
  · exact absurd h (by simp)
  · split at h
    · exact absurd h (by simp)
    · cases h
      exact ⟨rfl, rfl, rfl, rfl⟩

theorem parseComplzssHeader_compression (p q : IM4PData)
    (h : parseComplzssHeader p = some q) : q.compression = p.compression := by
  unfold parseComplzssHeader at h
  split at h
  · exact absurd h (by simp)
  · split at h
    · exact absurd h (by simp)
    · next p1 hp1 =>
      have hc := (setSize_fields _ _ _ hp1).1
      split at h
      · cases h
        exact hc
      · cases h
        exact hc

theorem parseComplzssHeader_trunc (p : IM4PData)
    (hsz : bytesToNat (sliceB 0xC 0x10 p.data) = 0 ∨
      p.data.length ≤ bytesToNat (sliceB 0xC 0x10 p.data))
    (hcmp : bytesToNat (sliceB 0x10 0x14 p.data) + 0x180 < p.data.length) :
    parseComplzssHeader p =
      some { p with
        size := bytesToNat (sliceB 0xC 0x10 p.data),
        extra := some (p.data.drop (0x180 + bytesToNat (sliceB 0x10 0x14 p.data))),
        data := p.data.take (0x180 + bytesToNat (sliceB 0x10 0x14 p.data)) } := by
  unfold parseComplzssHeader
  rw [if_neg (show ¬(p.data.length < 17) by omega)]
  rw [setSize_ok p _ hsz]
  dsimp only
  rw [if_pos (show ((bytesToNat (sliceB 0x10 0x14 p.data) : Int)) <
      ((p.data.length : Int)) - 0x180 by omega)]
  have harith : p.data.length -
      (p.data.length - bytesToNat (sliceB 0x10 0x14 p.data) - 0x180) =
      0x180 + bytesToNat (sliceB 0x10 0x14 p.data) := by omega
  rw [harith]

/-- Claim C2 fails on the code: compression is a cached field, there is no
UNKNOWN member, and the claimed classification disagrees with the code on
a reachable state.  A freshly built unencrypted payload classifies NONE;
after `add_keybag` it is encrypted with no known size, which the claim
classifies UNKNOWN, while the stored (and returned) value is still NONE
and no UNKNOWN value even exists in the source enum. -/
theorem c2_counterexample :
    initIM4PData idCodecs [65, 65, 65, 65] 0 none =
      some ⟨[65, 65, 65, 65], [], none, 0, .NONE⟩ ∧
    mkKeybag (List.replicate 16 0) (List.replicate 32 0) .DEVELOPMENT =
      some ⟨.DEVELOPMENT, List.replicate 16 0, List.replicate 32 0, none⟩ ∧
    addKeybag ⟨[65, 65, 65, 65], [], none, 0, .NONE⟩
        ⟨.DEVELOPMENT, List.replicate 16 0, List.replicate 32 0, none⟩ =
      some ⟨[65, 65, 65, 65],
        [⟨.DEVELOPMENT, List.replicate 16 0, List.replicate 32 0, none⟩], none, 0,
        .NONE⟩ ∧
    claimClassify true false [65, 65, 65, 65] = .UNKNOWN ∧
    Compression.toSpec
        (IM4PData.compression ⟨[65, 65, 65, 65],
          [⟨.DEVELOPMENT, List.replicate 16 0, List.replicate 32 0, none⟩], none, 0,
          .NONE⟩) = .NONE := by
  exact ⟨rfl, rfl, rfl, rfl, rfl⟩

/-- Claim C2 amended: `compression` is a cached field, assigned by
`_detect_compression` at construction (with no keybags yet, so never
LZFSE_ENCRYPTED there) and at the end of `compress`/`decompress`; queries
return the cache, and `add_keybag`, `decrypt` and the `size` setter leave
it untouched, so it can go stale.  The detection itself has no UNKNOWN
outcome: encrypted with positive size gives LZFSE_ENCRYPTED, else a
`complzss` prefix gives LZSS, else a `bvx2` prefix with `bvx$` occurring
anywhere (not only as a suffix) gives LZFSE, else NONE. -/
theorem c2_compression_cached (C : Codecs) :
    (∀ data size extra p, initIM4PData C data size extra = some p →
      p.compression = detectCompression false size data data) ∧
    (∀ p kb q, addKeybag p kb = some q → q.compression = p.compression) ∧
    (∀ p kb, (decrypt C p kb).compression = p.compression) ∧
    (∀ p n q, setSize p n = some q → q.compression = p.compression) ∧
    (∀ p : IM4PData, p.compression ≠ .NONE → p.compression ≠ .LZFSE_ENCRYPTED →
      (decompress C p).state.compression =
        detectCompression (!(decompress C p).state.keybags.isEmpty)
          ((decompress C p).state.size : Int) (decompress C p).state.data
          (decompress C p).state.data) := by
  refine ⟨?_, ?_, ?_, ?_, ?_⟩
  · intro data size extra p h
    unfold initIM4PData at h
    split at h
    · next hc =>
      have := parseComplzssHeader_compression _ _ h
      simpa using this
    · split at h
      · have := (setSize_fields _ _ _ h).1
        simpa using this
      · have := (setSize_fields _ _ _ h).1
        simpa using this
  · intro p kb q h
    unfold addKeybag at h
    split at h
    · exact absurd h (by simp)
    · split at h
      · exact absurd h (by simp)
      · cases h
        rfl
  · intro p kb
    rfl
  · intro p n q h
    exact (setSize_fields _ _ _ h).1
  · intro p h1 h2
    unfold decompress
    rw [if_neg h1, if_neg h2]

/-- Witness for `c2_compression_cached` at concrete inputs. -/
theorem c2_compression_cached_witness :
    IM4PData.compression ⟨[65, 66, 67], [], some [1], 0, .NONE⟩ =
      detectCompression false 0 [65, 66, 67] [65, 66, 67] :=
  (c2_compression_cached idCodecs).1 [65, 66, 67] 0 (some [1])
    ⟨[65, 66, 67], [], some [1], 0, .NONE⟩ rfl

/-- Claim C3 fails on the code, which contradicts the repository's own
test `test_read_lzfse_enc`: after a successful `decrypt` of an
LZFSE-compressed, AES-encrypted payload (parsed state: magic-free
ciphertext, a keybag, a recorded size, cached compression NONE), the
`compression` property still returns the stale cached value NONE instead
of LZFSE (re-running `_detect_compression` on the current state would
give LZFSE), and the subsequent `decompress()` raises CompressionError
instead of succeeding and reporting NONE. -/
theorem c3_stale_compression_after_decrypt :
    initIM4PData c3Codecs c3Cipher 0 none = some ⟨c3Cipher, [], none, 0, .NONE⟩ ∧
    mkKeybag (List.replicate 16 1) (List.replicate 32 2) .PRODUCTION =
      some c3Keybag ∧
    addKeybag ⟨c3Cipher, [], none, 0, .NONE⟩ c3Keybag =
      some ⟨c3Cipher, [c3Keybag], none, 0, .NONE⟩ ∧
    setSize ⟨c3Cipher, [c3Keybag], none, 0, .NONE⟩ 16 =
      some ⟨c3Cipher, [c3Keybag], none, 16, .NONE⟩ ∧
    decrypt c3Codecs ⟨c3Cipher, [c3Keybag], none, 16, .NONE⟩ c3Keybag =
      c3Decrypted ∧
    c3Decrypted.compression = .NONE ∧
    c3Decrypted.compression ≠ .LZFSE ∧
    detectCompression (!c3Decrypted.keybags.isEmpty) (c3Decrypted.size : Int)
      c3Decrypted.data c3Decrypted.data = .LZFSE ∧
    (decompress c3Codecs c3Decrypted).err = some .compressionError := by
  exact ⟨rfl, rfl, rfl, rfl, rfl, rfl, by decide, rfl, rfl⟩

theorem c8_arith (cl n : Nat) (h : cl + 0x180 < n) :
    n - (n - cl - 0x180) = 0x180 + cl := by omega

/-- Claim C8 confirmed: constructing an `IM4PData` from an unencrypted
`complzss` buffer whose header-declared compressed length is smaller than
the buffer length minus the 0x180-byte header moves exactly the
surplus trailing bytes into `extra`; `decompress()` keeps that `extra`
(of length buffer length − 0x180 − cmp_len) and decompresses only the
truncated buffer, so the plaintext excludes the surplus. -/
theorem c8_lzss_extra_recovery (C : Codecs) (data : List Nat)
    (hmagic : startsWithB complzssMagic data = true)
    (hsz : bytesToNat (sliceB 0xC 0x10 data) = 0 ∨
      data.length ≤ bytesToNat (sliceB 0xC 0x10 data))
    (hcmp : bytesToNat (sliceB 0x10 0x14 data) + 0x180 < data.length) :
    ∃ p q, initIM4PData C data 0 none = some p ∧ decompress C p = ⟨q, none⟩ ∧
      q.extra = some (data.drop (0x180 + bytesToNat (sliceB 0x10 0x14 data))) ∧
      (data.drop (0x180 + bytesToNat (sliceB 0x10 0x14 data))).length =
        data.length - 0x180 - bytesToNat (sliceB 0x10 0x14 data) ∧
      q.data = C.lzssD (data.take (0x180 + bytesToNat (sliceB 0x10 0x14 data))) := by
  have hdet : detectCompression false 0 data data = .LZSS := by
    unfold detectCompression
    rw [if_neg (by simp), if_pos hmagic]
  have hinit : initIM4PData C data 0 none =
      some ⟨data.take (0x180 + bytesToNat (sliceB 0x10 0x14 data)), [],
        some (data.drop (0x180 + bytesToNat (sliceB 0x10 0x14 data))),
        bytesToNat (sliceB 0xC 0x10 data), .LZSS⟩ := by
    unfold initIM4PData
    rw [hdet, if_pos rfl]
    exact parseComplzssHeader_trunc ⟨data, [], none, 0, .LZSS⟩ hsz hcmp
  refine ⟨_, _, hinit, rfl, rfl, ?_, rfl⟩
  rw [List.length_drop]
  omega

/-- Claim C6 fails on the code: when the LZFSE compressor output lacks the
magic framing, `compress` raises CompressionError, but `size` has already
been overwritten with the buffer length, so a mutation is visible.  Here a
freshly constructed payload of 4 bytes with `size = 0` ends the failed
call with `size = 4`. -/
theorem c6_counterexample :
    initIM4PData noMagicCodecs [1, 2, 3, 4] 0 none =
      some ⟨[1, 2, 3, 4], [], none, 0, .NONE⟩ ∧
    (compress noMagicCodecs .LZFSE ⟨[1, 2, 3, 4], [], none, 0, .NONE⟩).err =
      some .compressionError ∧
    (compress noMagicCodecs .LZFSE ⟨[1, 2, 3, 4], [], none, 0, .NONE⟩).state.size = 4 ∧
    (⟨[1, 2, 3, 4], [], none, 0, .NONE⟩ : IM4PData).size = 0 :=
  ⟨rfl, rfl, rfl, rfl⟩

/-- Claim C6 amended: on an unencrypted, uncompressed payload whose LZFSE
compressor output lacks the `bvx2`/`bvx$` framing, `compress(LZFSE)`
raises CompressionError with the data buffer, compression classification
and extra field unchanged, but with `size` set to the pre-compression
buffer length. -/
theorem c6_lzfse_compress_rollback (C : Codecs) (p : IM4PData)
    (henc : p.keybags = []) (hcomp : p.compression = .NONE)
    (hmagic : ¬(startsWithB bvx2Magic (C.lzfseC p.data) = true ∧
      containsB bvxEndMagic (C.lzfseC p.data) = true)) :
    compress C .LZFSE p =
      ⟨{ p with size := p.data.length }, some .compressionError⟩ := by
  unfold compress
  rw [if_neg (by simp), if_neg (by simp [henc]), if_neg (by simp [hcomp])]
  rw [setSize_ok p p.data.length (Or.inr le_rfl)]
  simp only [reduceCtorEq, if_false]
  rw [if_pos]
  simpa using hmagic

/-- Witness for `c6_lzfse_compress_rollback` at a concrete payload. -/
theorem c6_lzfse_compress_rollback_witness :
    compress noMagicCodecs .LZFSE ⟨[1, 2, 3, 4], [], none, 0, .NONE⟩ =
      ⟨⟨[1, 2, 3, 4], [], none, 4, .NONE⟩, some .compressionError⟩ :=
  c6_lzfse_compress_rollback noMagicCodecs ⟨[1, 2, 3, 4], [], none, 0, .NONE⟩
    rfl rfl (by decide)

/-- Claim C7 fails on the code: the recorded payload size is settable more
than once; a second assignment through the `size` setter succeeds (there
is no StateError in the source), and reading the size of an encrypted
payload with no recorded size returns 0 instead of failing. -/
theorem c7_counterexample :
    initIM4PData idCodecs [1, 2, 3] 0 none = some ⟨[1, 2, 3], [], none, 0, .NONE⟩ ∧
    setSize ⟨[1, 2, 3], [], none, 0, .NONE⟩ 5 =
      some ⟨[1, 2, 3], [], none, 5, .NONE⟩ ∧
    setSize ⟨[1, 2, 3], [], none, 5, .NONE⟩ 7 =
      some ⟨[1, 2, 3], [], none, 7, .NONE⟩ :=
  ⟨rfl, rfl, rfl⟩

/-- Claim C7 amended: the recorded size is settable repeatedly; every
assignment of 0 or of a value at least the buffer length succeeds,
including after a previous assignment, and the getter returns the stored
value. -/
theorem c7_size_settable_repeatedly (p : IM4PData) (n m : Nat)
    (hn : n = 0 ∨ p.data.length ≤ n) (hm : m = 0 ∨ p.data.length ≤ m) :
    ∃ p1 p2, setSize p (n : Int) = some p1 ∧ setSize p1 (m : Int) = some p2 ∧
      p1.size = n ∧ p2.size = m := by
  refine ⟨{ p with size := n }, { p with size := m }, setSize_ok p n hn, ?_, rfl, rfl⟩
  exact setSize_ok { p with size := n } m hm

/-- Witness for `c7_size_settable_repeatedly` at a concrete payload. -/
theorem c7_size_settable_repeatedly_witness :
    ∃ p1 p2, setSize ⟨[1, 2, 3], [], none, 0, .NONE⟩ (5 : Int) = some p1 ∧
      setSize p1 (7 : Int) = some p2 ∧ p1.size = 5 ∧ p2.size = 7 :=
  c7_size_settable_repeatedly ⟨[1, 2, 3], [], none, 0, .NONE⟩ 5 7
    (Or.inr (by decide)) (Or.inr (by decide))

/-- Witness for `c8_lzss_extra_recovery` at the concrete fixture. -/
theorem c8_lzss_extra_recovery_witness :
    ∃ p q, initIM4PData idCodecs c8Data 0 none = some p ∧
      decompress idCodecs p = ⟨q, none⟩ ∧
      q.extra = some (c8Data.drop (0x180 + bytesToNat (sliceB 0x10 0x14 c8Data))) ∧
      (c8Data.drop (0x180 + bytesToNat (sliceB 0x10 0x14 c8Data))).length =
        c8Data.length - 0x180 - bytesToNat (sliceB 0x10 0x14 c8Data) ∧
      q.data =
        idCodecs.lzssD (c8Data.take (0x180 + bytesToNat (sliceB 0x10 0x14 c8Data))) :=
  c8_lzss_extra_recovery idCodecs c8Data (by decide) (Or.inr (by decide)) (by decide)

theorem componentOk_iff (m : Im4mView) (c : String × Option (List Nat)) :
    componentOk m c = true ↔
      ∀ d, c.2 = some d → ∃ i ∈ m.images, digestMatches i d = true := by
  rcases c with ⟨name, dg⟩
  cases dg with
  | none => simp [componentOk]
  | some d => simp [componentOk, List.any_eq_true]

theorem satisfiesDigests_iff (m : Im4mView) (bi : BuildIdentity) :
    bi.components.all (componentOk m) = true ↔ SatisfiesDigests m bi := by
  rw [List.all_eq_true, SatisfiesDigests]
  constructor
  · intro h c hc
    exact (componentOk_iff m c).mp (h c hc)
  · intro h c hc
    exact (componentOk_iff m c).mpr (h c hc)

/-- Claim C5 confirmed: the verifier scans the identities in order,
skipping every identity whose board/chip ids do not both match; the first
matching identity all of whose digest-declaring components have a
byte-equal digest among the manifest's images yields its descriptive
metadata; identities failing a digest requirement are passed over, and an
exhausted list is the (exception-free) None outcome.  Stated as: the scan
returns None exactly when no identity matches and satisfies its digests,
and any returned verdict is the metadata of the first identity that does,
with every earlier identity failing. -/
theorem c5_im4m_verify_characterization (m : Im4mView) (ids : List BuildIdentity) :
    (im4mVerify m ids = none ↔
      ∀ bi ∈ ids, ¬(MatchesIds m bi ∧ SatisfiesDigests m bi)) ∧
    (∀ v, im4mVerify m ids = some v →
      ∃ pre bi post, ids = pre ++ bi :: post ∧
        (∀ j ∈ pre, ¬(MatchesIds m j ∧ SatisfiesDigests m j)) ∧
        MatchesIds m bi ∧ SatisfiesDigests m bi ∧
        v = ⟨bi.deviceClass, bi.buildNumber, bi.restoreBehavior⟩) := by
  induction ids with
  | nil =>
    refine ⟨by simp [im4mVerify], ?_⟩
    intro v h
    simp [im4mVerify] at h
  | cons bi rest ih =>
    have hstep : im4mVerify m (bi :: rest) =
        if ¬(m.boardId = some bi.boardId ∧ m.chipId = some bi.chipId) then
          im4mVerify m rest
        else if bi.components.all (componentOk m) then
          some ⟨bi.deviceClass, bi.buildNumber, bi.restoreBehavior⟩
        else im4mVerify m rest := rfl
    by_cases hm : MatchesIds m bi
    · have hm2 : m.boardId = some bi.boardId ∧ m.chipId = some bi.chipId := hm
      by_cases hs : bi.components.all (componentOk m) = true
      · have hv : im4mVerify m (bi :: rest) =
            some ⟨bi.deviceClass, bi.buildNumber, bi.restoreBehavior⟩ := by
          rw [hstep, if_neg (not_not_intro hm2), if_pos hs]
        have hsat : SatisfiesDigests m bi := (satisfiesDigests_iff m bi).mp hs
        constructor
        · constructor
          · intro h
            rw [hv] at h
            exact absurd h (by simp)
          · intro hall
            exact absurd ⟨hm, hsat⟩ (hall bi (List.mem_cons_self bi rest))
        · intro v h
          rw [hv] at h
          refine ⟨[], bi, rest, rfl, by simp, hm, hsat, ?_⟩
          exact (Option.some.inj h).symm
      · have hv : im4mVerify m (bi :: rest) = im4mVerify m rest := by
          rw [hstep, if_neg (not_not_intro hm2), if_neg hs]
        have hbad : ¬(MatchesIds m bi ∧ SatisfiesDigests m bi) := by
          rintro ⟨-, hsat⟩
          exact hs ((satisfiesDigests_iff m bi).mpr hsat)
        constructor
        · rw [hv]
          constructor
          · intro h j hj
            rcases List.mem_cons.mp hj with rfl | hj2
            · exact hbad
            · exact (ih.1).mp h j hj2
          · intro hall
            exact (ih.1).mpr fun j hj => hall j (List.mem_cons_of_mem _ hj)
        · intro v h
          rw [hv] at h
          obtain ⟨pre, bj, post, heq, hpre, hmj, hsj, hvj⟩ := ih.2 v h
          refine ⟨bi :: pre, bj, post, by rw [List.cons_append, heq], ?_, hmj, hsj, hvj⟩
          intro j hj
          rcases List.mem_cons.mp hj with rfl | hj2
          · exact hbad
          · exact hpre j hj2
    · have hm2 : ¬(m.boardId = some bi.boardId ∧ m.chipId = some bi.chipId) := hm
      have hv : im4mVerify m (bi :: rest) = im4mVerify m rest := by
        rw [hstep, if_pos hm2]
      have hbad : ¬(MatchesIds m bi ∧ SatisfiesDigests m bi) := fun hc => hm hc.1
      constructor
      · rw [hv]
        constructor
        · intro h j hj
          rcases List.mem_cons.mp hj with rfl | hj2
          · exact hbad
          · exact (ih.1).mp h j hj2
        · intro hall
          exact (ih.1).mpr fun j hj => hall j (List.mem_cons_of_mem _ hj)
      · intro v h
        rw [hv] at h
        obtain ⟨pre, bj, post, heq, hpre, hmj, hsj, hvj⟩ := ih.2 v h
        refine ⟨bi :: pre, bj, post, by rw [List.cons_append, heq], ?_, hmj, hsj, hvj⟩
        intro j hj
        rcases List.mem_cons.mp hj with rfl | hj2
        · exact hbad
        · exact hpre j hj2

/-- Witness for `c5_im4m_verify_characterization`: a two-identity scan
whose first identity does not match and whose second matches with
satisfied digests reports the second identity's metadata. -/
theorem c5_im4m_verify_characterization_witness :
    ∃ pre bi post, [c5IdA, c5IdB] = pre ++ bi :: post ∧
      (∀ j ∈ pre, ¬(MatchesIds c5Im4m j ∧ SatisfiesDigests c5Im4m j)) ∧
      MatchesIds c5Im4m bi ∧ SatisfiesDigests c5Im4m bi ∧
      (⟨"D22AP", "19A346", "Erase"⟩ : VerifyVerdict) =
        ⟨bi.deviceClass, bi.buildNumber, bi.restoreBehavior⟩ :=
  (c5_im4m_verify_characterization c5Im4m [c5IdA, c5IdB]).2
    ⟨"D22AP", "19A346", "Erase"⟩ rfl

theorem eraseFirstProp_sublist (l : List ImgProperty) (p : ImgProperty) :
    (eraseFirstProp l p).Sublist l := by
  induction l with
  | nil => simp [eraseFirstProp]
  | cons q qs ih =>
    unfold eraseFirstProp
    split
    · exact List.sublist_cons_self q qs
    · exact ih.cons₂ q

/-- Claim C9 fails on the code: decode does not enforce fourcc uniqueness,
so a group reachable through the public decode operation can carry
duplicate member fourccs. -/
theorem c9_counterexample :
    parseGroupBytes (.enc [c9DupTree]) =
      some ⟨"AAAA", [⟨"BBBB", .pint 1⟩, ⟨"BBBB", .pint 1⟩]⟩ ∧
    ¬(([⟨"BBBB", .pint 1⟩, ⟨"BBBB", .pint 1⟩] :
        List ImgProperty).map (fun p => p.fourcc)).Nodup := by
  exact ⟨rfl, by decide⟩

/-- Claim C9 amended: fresh construction, `add_property` and
`remove_property` preserve pairwise-distinct member fourccs, with
`add_property` failing on a fourcc already present and `remove_property`
failing when the designated member (by fourcc or by value) is absent; but
decode performs no uniqueness check, so a decoded group may carry
duplicates. -/
theorem c9_group_uniqueness :
    (∀ f g, mkPropertyGroup f = some g →
      (g.properties.map (fun p => p.fourcc)).Nodup) ∧
    (∀ g p, p.fourcc ∈ g.properties.map (fun q => q.fourcc) →
      addProperty g p = none) ∧
    (∀ g p g2, addProperty g p = some g2 →
      (g.properties.map (fun q => q.fourcc)).Nodup →
      (g2.properties.map (fun q => q.fourcc)).Nodup) ∧
    (∀ g f, (∀ q ∈ g.properties, q.fourcc ≠ f) →
      removePropertyByFourcc g f = none) ∧
    (∀ g f g2, removePropertyByFourcc g f = some g2 →
      (g.properties.map (fun q => q.fourcc)).Nodup →
      (g2.properties.map (fun q => q.fourcc)).Nodup) ∧
    (∀ g p, (∀ q ∈ g.properties, ImgProperty.beq q p = false) →
      removePropertyByProp g p = none) ∧
    (∀ g p g2, removePropertyByProp g p = some g2 →
      (g.properties.map (fun q => q.fourcc)).Nodup →
      (g2.properties.map (fun q => q.fourcc)).Nodup) := by
  refine ⟨?_, ?_, ?_, ?_, ?_, ?_, ?_⟩
  · intro f g h
    unfold mkPropertyGroup at h
    split at h
    · cases h
      simp
    · exact absurd h (by simp)
  · intro g p hp
    unfold addProperty
    rw [if_pos]
    obtain ⟨q, hq, hqf⟩ := List.mem_map.mp hp
    rw [List.any_eq_true]
    exact ⟨q, hq, by simp [hqf]⟩
  · intro g p g2 h hnd
    unfold addProperty at h
    split at h
    · exact absurd h (by simp)
    · next hany =>
      cases h
      have hnotin : p.fourcc ∉ g.properties.map (fun q => q.fourcc) := by
        intro hmem
        obtain ⟨q, hq, hqf⟩ := List.mem_map.mp hmem
        exact hany (List.any_eq_true.mpr ⟨q, hq, by simp [hqf]⟩)
      simp only [List.map_append, List.map_cons, List.map_nil]
      rw [List.nodup_append]
      refine ⟨hnd, List.nodup_singleton _, ?_⟩
      intro a ha hb
      rw [List.mem_singleton] at hb
      exact hnotin (hb ▸ ha)
  · intro g f habs
    unfold removePropertyByFourcc
    split
    · rw [List.find?_eq_none.mpr (fun q hq => by simpa using habs q hq)]
    · rfl
  · intro g f g2 h hnd
    unfold removePropertyByFourcc at h
    split at h
    · split at h
      · next pr hpr =>
        cases h
        exact hnd.sublist ((eraseFirstProp_sublist g.properties pr).map
          (fun q => q.fourcc))
      · exact absurd h (by simp)
    · exact absurd h (by simp)
  · intro g p habs
    unfold removePropertyByProp
    rw [if_neg]
    intro hany
    obtain ⟨q, hq, hbq⟩ := List.any_eq_true.mp hany
    exact absurd hbq (by simp [habs q hq])
  · intro g p g2 h hnd
    unfold removePropertyByProp at h
    split at h
    · cases h
      exact hnd.sublist ((eraseFirstProp_sublist g.properties p).map
        (fun q => q.fourcc))
    · exact absurd h (by simp)

/-- Witness for `c9_group_uniqueness`: adding a duplicate fourcc to a
concrete group fails. -/
theorem c9_group_uniqueness_witness :
    addProperty ⟨"MANP", [⟨"CHIP", .pint 1⟩]⟩ ⟨"CHIP", .pint 2⟩ = none :=
  c9_group_uniqueness.2.1 ⟨"MANP", [⟨"CHIP", .pint 1⟩]⟩ ⟨"CHIP", .pint 2⟩
    (by decide)

theorem keybag_beq_refl (k : Keybag) : Keybag.beq k k = true := by
  unfold Keybag.beq
  cases k.rawData with
  | none => rfl
  | some x => simpa using pbytes_beq_refl x

theorem findIdx_beq_of_pairwise (l : List Keybag)
    (hp : l.Pairwise (fun a b => Keybag.beq a b = false)) :
    ∀ i kb, l[i]? = some kb → l.findIdx (fun k => Keybag.beq k kb) = i := by
  induction l with
  | nil => intro i kb h; simp at h
  | cons a as ih =>
    intro i kb h
    cases i with
    | zero =>
      rw [List.getElem?_cons_zero, Option.some.injEq] at h
      subst h
      rw [List.findIdx_cons]
      simp [keybag_beq_refl]
    | succ j =>
      rw [List.getElem?_cons_succ] at h
      have hmem : kb ∈ as := List.getElem?_mem h
      have hfalse : Keybag.beq a kb = false :=
        (List.pairwise_cons.mp hp).1 kb hmem
      rw [List.findIdx_cons, hfalse]
      simp only [cond_false]
      rw [ih (List.pairwise_cons.mp hp).2 j kb h]

/-- Claim C10 confirmed: `add_keybag` keeps the keybag list free of
`==`-equal duplicates, and under that invariant `IM4PData.output`
serializes the keybag blob positionally — the i-th keybag is written with
integer field i + 1, with no reference to the keybag's own type. -/
theorem c10_keybag_positional :
    (∀ p kb q, addKeybag p kb = some q →
      p.keybags.Pairwise (fun a b => Keybag.beq a b = false) →
      q.keybags.Pairwise (fun a b => Keybag.beq a b = false)) ∧
    (∀ p : IM4PData, p.keybags.isEmpty = false →
      (im4pDataOutput p).keybags = some [.seq (kbagSeq p.keybags)]) ∧
    (∀ p : IM4PData, p.keybags.Pairwise (fun a b => Keybag.beq a b = false) →
      ∀ (i : Nat) (kb : Keybag), p.keybags[i]? = some kb →
        (kbagSeq p.keybags)[i]? =
          some (.seq [.int ((i : Int) + 1), .octetRaw kb.iv, .octetRaw kb.key])) := by
  refine ⟨?_, ?_, ?_⟩
  · intro p kb q h hp
    unfold addKeybag at h
    split at h
    · exact absurd h (by simp)
    · split at h
      · exact absurd h (by simp)
      · next hne =>
        cases h
        rw [List.pairwise_append]
        refine ⟨hp, List.pairwise_singleton _ _, ?_⟩
        intro a ha b hb
        rw [List.mem_singleton] at hb
        subst hb
        rcases hbeq : Keybag.beq a b with _ | _
        · rfl
        · exact absurd (List.any_eq_true.mpr ⟨a, ha, hbeq⟩) hne
  · intro p hne
    unfold im4pDataOutput
    rw [if_neg (by simp [hne])]
  · intro p hp i kb h
    unfold kbagSeq
    rw [List.getElem?_map, h]
    simp only [Option.map_some']
    rw [findIdx_beq_of_pairwise p.keybags hp i kb h]

/-- Witness for `c10_keybag_positional`: a payload whose only keybag is a
DEVELOPMENT keybag (wire type integer 2) is serialized with integer field
1 in position 0. -/
theorem c10_keybag_positional_witness :
    (im4pDataOutput c10Payload).keybags = some [.seq (kbagSeq c10Payload.keybags)] ∧
    (kbagSeq c10Payload.keybags)[0]? =
      some (.seq [.int 1, .octetRaw (List.replicate 16 3),
        .octetRaw (List.replicate 32 4)]) :=
  ⟨c10_keybag_positional.2.1 c10Payload rfl,
    c10_keybag_positional.2.2 c10Payload
      (List.pairwise_singleton _ _) 0
      ⟨.DEVELOPMENT, List.replicate 16 3, List.replicate 32 4, none⟩ rfl⟩

/-- Claim C4 fails on the code: serializing an IM4R is not idempotent.
Decoding `c4Wire` stores the nonce byte-reversed; the first `output()`
reproduces the wire but flips the stored nonce back, so the observable
`boot_nonce` changes, and a second `output()` returns different bytes
(the nonce reversed), contradicting the spec's
exactly-one-reversal-per-direction requirement. -/
theorem c4_im4r_output_not_idempotent :
    IM4R.parse [c4Wire] =
      some ⟨"IM4R", [⟨"BNCN", .pbytes (.raw c4NonceRev)⟩]⟩ ∧
    IM4R.output ⟨"IM4R", [⟨"BNCN", .pbytes (.raw c4NonceRev)⟩]⟩ =
      some (c4Wire, ⟨"IM4R", [⟨"BNCN", .pbytes (.raw c4Nonce)⟩]⟩) ∧
    IM4R.output ⟨"IM4R", [⟨"BNCN", .pbytes (.raw c4Nonce)⟩]⟩ =
      some (c4WireRev, ⟨"IM4R", [⟨"BNCN", .pbytes (.raw c4NonceRev)⟩]⟩) ∧
    c4Wire ≠ c4WireRev ∧
    IM4R.bootNonce ⟨"IM4R", [⟨"BNCN", .pbytes (.raw c4Nonce)⟩]⟩ ≠
      IM4R.bootNonce ⟨"IM4R", [⟨"BNCN", .pbytes (.raw c4NonceRev)⟩]⟩ := by
  refine ⟨rfl, rfl, rfl, ?_, ?_⟩
  · simp [c4Wire, c4WireRev, c4Nonce, c4NonceRev]
  · have e1 : IM4R.bootNonce ⟨"IM4R", [⟨"BNCN", .pbytes (.raw c4Nonce)⟩]⟩ =
        some (.pbytes (.raw c4Nonce)) := rfl
    have e2 : IM4R.bootNonce ⟨"IM4R", [⟨"BNCN", .pbytes (.raw c4NonceRev)⟩]⟩ =
        some (.pbytes (.raw c4NonceRev)) := rfl
    rw [e1, e2]
    simp [c4Nonce, c4NonceRev]

/-- Claim C1 fails on the code via the IM4R boot-nonce toggle: for the
decoded entity x (first record), encode(x) = `c1Wire` leaves x in the
mutated second record; re-decoding `c1Wire` gives the first record again,
and the `==` comparison of `decode(encode(x))` with x compares their
outputs, `c1Wire` against `c1WireRev`, which differ, so
`decode(encode(x)) == x` is False for a non-palindromic nonce. -/
theorem c1_roundtrip_fails_on_im4r :
    IM4R.parse [c1Wire] =
      some ⟨"IM4R", [⟨"BNCN", .pbytes (.raw c1NonceRev)⟩]⟩ ∧
    IM4R.output ⟨"IM4R", [⟨"BNCN", .pbytes (.raw c1NonceRev)⟩]⟩ =
      some (c1Wire, ⟨"IM4R", [⟨"BNCN", .pbytes (.raw c1Nonce)⟩]⟩) ∧
    (IM4R.output ⟨"IM4R", [⟨"BNCN", .pbytes (.raw c1NonceRev)⟩]⟩).map Prod.fst =
      some c1Wire ∧
    (IM4R.output ⟨"IM4R", [⟨"BNCN", .pbytes (.raw c1Nonce)⟩]⟩).map Prod.fst =
      some c1WireRev ∧
    c1Wire ≠ c1WireRev := by
  refine ⟨rfl, rfl, rfl, rfl, ?_⟩
  simp [c1Wire, c1WireRev, c1Nonce, c1NonceRev]

end PyIMG4
